import Mathlib

/-!
Verification of `certbot/plugins/dns_common.py` — common code for DNS
authenticator plugins.

The Python source is shallowly embedded below.  External collaborators
(the provider binding's abstract `_setup_credentials` / `_perform` /
`_cleanup` hooks, the filesystem, `configobj`, and the interactive
prompt) are modelled as explicit parameters; everything else is a direct
translation of the source.
-/

namespace DnsCommon

/-- Python exceptions raised by the code: `errors.PluginError` with a
message, and the standard library's `ValueError` (raised by
`time.sleep` on a negative duration). -/
inductive PyErr where
  | pluginError (msg : String)
  | valueError (msg : String)
deriving DecidableEq, Repr

/-- One ACME challenge as seen by `perform`/`cleanup`.  The Python code
reads `achall.domain`, computes
`achall.validation_domain_name(domain)` and
`achall.validation(achall.account_key)`, and collects
`achall.response(achall.account_key)`; these collaborator-supplied
values are carried as fields (`response` is an opaque token). -/
structure Challenge where
  domain : String
  validationDomainName : String
  validation : String
  response : Nat
deriving DecidableEq, Repr

/-- Observable calls `perform`/`cleanup` make, in order. -/
inductive Event where
  | setupCredentials
  | createRecord (domain validationDomainName validation : String)
  | sleepFor (seconds : Int)
  | deleteRecord (domain validationDomainName validation : String)
deriving DecidableEq, Repr

/-- The provider binding: outcomes of the abstract hooks
`_setup_credentials`, `_perform` and `_cleanup` that a concrete DNS
plugin implements (each may raise). -/
structure Binding where
  setupCredentials : Except PyErr Unit
  createRecord : String → String → String → Except PyErr Unit
  deleteRecord : String → String → String → Except PyErr Unit

/-- A `DNSAuthenticator` instance: the configured
`propagation-seconds` value (declared with `type=int`), the
`_attempt_cleanup` instance flag (class default `False`), and the
provider binding. -/
structure Authenticator where
  propagationSeconds : Int
  attemptCleanup : Bool
  binding : Binding

/-- A freshly constructed authenticator: `_attempt_cleanup = False`. -/
def initAuthenticator (propagationSeconds : Int) (binding : Binding) : Authenticator :=
  { propagationSeconds := propagationSeconds, attemptCleanup := false, binding := binding }

/-- The `createRecord` call event for one challenge. -/
def createEv (c : Challenge) : Event :=
  .createRecord c.domain c.validationDomainName c.validation

/-- The `deleteRecord` call event for one challenge. -/
def deleteEv (c : Challenge) : Event :=
  .deleteRecord c.domain c.validationDomainName c.validation

/-- The `for achall in achalls` loop body of `perform`: call
`self._perform(domain, validation_domain_name, validation)` and append
`achall.response(achall.account_key)`.  Returns the trace of binding
calls made and either the collected responses or the first raised
error (which aborts the rest of the loop). -/
def performLoop (b : Binding) : List Challenge → List Event × Except PyErr (List Nat)
  | [] => ([], .ok [])
  | c :: cs =>
    match b.createRecord c.domain c.validationDomainName c.validation with
    | .error e => ([createEv c], .error e)
    | .ok _ =>
      let r := performLoop b cs
      (createEv c :: r.1, r.2.map (fun rs => c.response :: rs))

/-- Result of a `perform` call: the instance's `_attempt_cleanup` flag
afterwards, the trace of calls made, and the returned responses or the
raised error. -/
structure PerformOutcome where
  attemptCleanup : Bool
  events : List Event
  result : Except PyErr (List Nat)
deriving Repr

/-- `DNSAuthenticator.perform`: call `self._setup_credentials()`, set
`self._attempt_cleanup = True`, run the per-challenge loop, then
`sleep(self.conf('propagation-seconds'))` and return the responses.
The negative-duration branch is modelled from the spec: `time.sleep`
(Python standard library, outside this repository) raises `ValueError`
for a negative duration, and the spec requires the propagation delay
to be a non-negative integer. -/
def perform (a : Authenticator) (achalls : List Challenge) : PerformOutcome :=
  match a.binding.setupCredentials with
  | .error e => ⟨a.attemptCleanup, [.setupCredentials], .error e⟩
  | .ok _ =>
    match performLoop a.binding achalls with
    | (evs, .error e) => ⟨true, .setupCredentials :: evs, .error e⟩
    | (evs, .ok rs) =>
      if a.propagationSeconds < 0 then
        ⟨true, .setupCredentials :: evs, .error (.valueError "sleep length must be non-negative")⟩
      else
        ⟨true, .setupCredentials :: evs ++ [.sleepFor a.propagationSeconds], .ok rs⟩

/-- The `for achall in achalls` loop body of `cleanup`: call
`self._cleanup(domain, validation_domain_name, validation)` for each
challenge; an error raised by the binding aborts the rest. -/
def cleanupLoop (b : Binding) : List Challenge → List Event × Except PyErr Unit
  | [] => ([], .ok ())
  | c :: cs =>
    match b.deleteRecord c.domain c.validationDomainName c.validation with
    | .error e => ([deleteEv c], .error e)
    | .ok _ =>
      let r := cleanupLoop b cs
      (deleteEv c :: r.1, r.2)

/-- Result of a `cleanup` call. -/
structure CleanupOutcome where
  attemptCleanup : Bool
  events : List Event
  result : Except PyErr Unit
deriving Repr

/-- `DNSAuthenticator.cleanup`: `if self._attempt_cleanup:` run the
per-challenge delete loop; otherwise do nothing.  The flag itself is
never written. -/
def cleanup (a : Authenticator) (achalls : List Challenge) : CleanupOutcome :=
  if a.attemptCleanup then
    let r := cleanupLoop a.binding achalls
    ⟨a.attemptCleanup, r.1, r.2⟩
  else
    ⟨a.attemptCleanup, [], .ok ()⟩

/-- The filesystem facts the code consults: `os.path.exists`,
`os.path.isfile`, and `stat.S_IMODE(os.lstat(filename).st_mode)`. -/
structure FileSystem where
  pathExists : String → Bool
  isfile : String → Bool
  lstatMode : String → Nat

/-- `stat.S_IRWXO`: the read/write/execute permission bits for
"others", octal 0o7. -/
def S_IRWXO : Nat := 7

/-- `validate_file`: ensure the file exists and is a regular file. -/
def validate_file (fs : FileSystem) (filename : String) : Except PyErr Unit :=
  if ¬ fs.pathExists filename then
    .error (.pluginError ("File not found: " ++ filename))
  else if ¬ fs.isfile filename then
    .error (.pluginError ("Path is not a file: " ++ filename))
  else
    .ok ()

/-- `validate_file_permissions`: `validate_file`, then warn (via the
logger, returned here as the list of warning messages) when any
"other" permission bit is set. -/
def validate_file_permissions (fs : FileSystem) (filename : String) :
    Except PyErr (List String) :=
  match validate_file fs filename with
  | .error e => .error e
  | .ok _ =>
    if (fs.lstatMode filename) &&& S_IRWXO ≠ 0 then
      .ok ["Unsafe permissions on credentials configuration file: " ++ filename]
    else
      .ok []

/-- `CredentialsConfiguration`: a parsed credentials file.
`confobj` is the key/value mapping `configobj.ConfigObj(filename)`
produces (first binding wins, as in a dict), `filename` is
`confobj.filename`, and `mapper` is the key-name transformation. -/
structure CredentialsConfiguration where
  filename : String
  mapper : String → String
  confobj : List (String × String)

/-- `CredentialsConfiguration._get`: `self.confobj.get(self.mapper(var))`. -/
def CredentialsConfiguration.getVar (c : CredentialsConfiguration) (var : String) :
    Option String :=
  c.confobj.lookup (c.mapper var)

/-- `CredentialsConfiguration._has`: `self.mapper(var) in self.confobj`. -/
def CredentialsConfiguration.hasVar (c : CredentialsConfiguration) (var : String) : Bool :=
  (c.getVar var).isSome

/-- Python `sep.join(messages)`. -/
def joinWith (sep : String) : List String → String
  | [] => ""
  | [m] => m
  | m :: m2 :: ms => m ++ sep ++ joinWith sep (m2 :: ms)

/-- The message `require` appends for one required variable `vd`
(a `(variable, description)` pair), or `none` when the variable is
present and non-empty: `if not self._has(var)` → "not found",
`elif not self._get(var)` (the empty string is falsy) → "not set". -/
def requireMessage (c : CredentialsConfiguration) (vd : String × String) : Option String :=
  match c.getVar vd.1 with
  | none =>
    some ("Property \"" ++ c.mapper vd.1 ++ "\" not found (should be " ++ vd.2 ++ ").")
  | some v =>
    if v = "" then
      some ("Property \"" ++ c.mapper vd.1 ++ "\" not set (should be " ++ vd.2 ++ ").")
    else
      none

/-- The aggregate `PluginError` message `require` raises. -/
def aggregateMessage (filename : String) (messages : List String) : String :=
  "Missing " ++ (if messages.length = 1 then "property" else "properties") ++
    " in credentials configuration file " ++ filename ++ ":\n * " ++
    joinWith "\n * " messages

/-- `CredentialsConfiguration.require`: check every required variable,
collecting all failure messages, and raise one aggregate `PluginError`
if any exist.  `required_variables` is a dict, modelled as its ordered
list of `(variable, description)` items. -/
def CredentialsConfiguration.require (c : CredentialsConfiguration)
    (required_variables : List (String × String)) : Except PyErr Unit :=
  let messages := required_variables.filterMap (requireMessage c)
  if messages.isEmpty then
    .ok ()
  else
    .error (.pluginError (aggregateMessage c.filename messages))

/-- External collaborators of the configuration helpers: the
filesystem, the parsed contents `configobj` would produce for each
filename, the interactive prompt's outcome (`some response` when the
display returns `OK`, `none` on cancellation), and the
`os.path.abspath` / `os.path.expanduser` path normalizations. -/
structure Env where
  fs : FileSystem
  fileContents : String → List (String × String)
  promptFile : Option String
  abspath : String → String
  expanduser : String → String

/-- The plugin's shared configuration view: `self.conf(key)` and the
`self.dest(key)` attribute-name mapping. -/
structure PluginConfig where
  conf : String → Option String
  dest : String → String

/-- `setattr(self.config, self.dest(key), v)`, as observed back
through `self.conf(key)`. -/
def setConf (pc : PluginConfig) (key v : String) : PluginConfig :=
  { pc with conf := fun k => if k = key then some v else pc.conf k }

/-- Python truthiness of a configured value: absent or empty. -/
def isFalsy : Option String → Bool
  | none => true
  | some s => s = ""

/-- `DNSAuthenticator._prompt_for_file`: prompt through the display
collaborator; on a non-OK status raise `'{label} required to proceed.'`. -/
def prompt_for_file (env : Env) (label : String) : Except PyErr String :=
  match env.promptFile with
  | some response => .ok response
  | none => .error (.pluginError (label ++ " required to proceed."))

/-- `DNSAuthenticator._configure_file`: if `self.conf(key)` is falsy,
prompt for a path and store its user-expanded absolute form. -/
def configure_file (env : Env) (pc : PluginConfig) (key label : String) :
    Except PyErr PluginConfig :=
  if isFalsy (pc.conf key) then
    match prompt_for_file env label with
    | .error e => .error e
    | .ok v => .ok (setConf pc key (env.abspath (env.expanduser v)))
  else
    .ok pc

/-- `CredentialsConfiguration.__init__`: validate the file's existence
and permissions, then parse it with `configobj`. -/
def mkCredentialsConfiguration (env : Env) (filename : String)
    (mapper : String → String) : Except PyErr CredentialsConfiguration :=
  match validate_file_permissions env.fs filename with
  | .error e => .error e
  | .ok _ => .ok ⟨filename, mapper, env.fileContents filename⟩

/-- `DNSAuthenticator._configure_credentials`: `_configure_file`, then
construct a `CredentialsConfiguration` from `self.conf(key)` with the
`self.dest` mapper, and `if required_variables:` (falsy for `None` and
for an empty dict) call `require`. -/
def configure_credentials (env : Env) (pc : PluginConfig) (key label : String)
    (required_variables : Option (List (String × String))) :
    Except PyErr (PluginConfig × CredentialsConfiguration) :=
  match configure_file env pc key label with
  | .error e => .error e
  | .ok pc2 =>
    match mkCredentialsConfiguration env ((pc2.conf key).getD "") pc2.dest with
    | .error e => .error e
    | .ok cc =>
      match required_variables with
      | none => .ok (pc2, cc)
      | some reqs =>
        if reqs.isEmpty then
          .ok (pc2, cc)
        else
          match cc.require reqs with
          | .error e => .error e
          | .ok _ => .ok (pc2, cc)

/-- Python `domain.split('.')` on the character list: split on every
dot; the empty input yields one empty fragment. -/
def splitDot : List Char → List (List Char)
  | [] => [[]]
  | c :: cs =>
    match splitDot cs with
    | [] => [[]]
    | h :: t => if c = '.' then [] :: h :: t else (c :: h) :: t

/-- Python `'.'.join(fragments)` on character lists. -/
def joinDot : List (List Char) → List Char
  | [] => []
  | [f] => f
  | f :: g :: fs => f ++ '.' :: joinDot (g :: fs)

/-- `base_domain_name_guesses`:
`fragments = domain.split('.')`;
`['.'.join(fragments[i:]) for i in range(0, len(fragments))]`. -/
def base_domain_name_guesses (domain : String) : List String :=
  let fragments := splitDot domain.data
  (List.range fragments.length).map (fun i => String.mk (joinDot (fragments.drop i)))

/-- The text after the last dot of a domain (the final label). -/
def lastLabel : List Char → List Char
  | [] => []
  | c :: cs =>
    if c = '.' then lastLabel cs
    else if '.' ∈ cs then lastLabel cs
    else c :: cs

/-- The one argument `DNSAuthenticator.add_parser_arguments` registers. -/
structure ParserArgument where
  name : String
  defaultValue : Int
  help : String
deriving Repr

/-- `add_parser_arguments`: `add('propagation-seconds', default=10, type=int, help=...)`.
The value's type is `int`, reflected in `defaultValue : Int`. -/
def add_parser_arguments : ParserArgument :=
  { name := "propagation-seconds"
    defaultValue := 10
    help := "The number of seconds to wait for DNS to propagate before asking the ACME server to verify the DNS record." }

/-- The string `part` occurs contiguously inside `msg`. -/
def mentions (msg part : String) : Prop :=
  ∃ s t, s ++ part.data ++ t = msg.data

/-! ### Concrete instances used by the witnesses -/

def bindingEx : Binding :=
  { setupCredentials := .ok ()
    createRecord := fun _ _ _ => .ok ()
    deleteRecord := fun _ _ _ => .ok () }

def bindingFailEx : Binding :=
  { setupCredentials := .ok ()
    createRecord := fun d _ _ =>
      if d = "bad.example" then .error (.pluginError "boom") else .ok ()
    deleteRecord := fun _ _ _ => .ok () }

def chalEx1 : Challenge := ⟨"example.com", "_acme-challenge.example.com", "tok1", 1⟩

def chalEx2 : Challenge := ⟨"example.org", "_acme-challenge.example.org", "tok2", 2⟩

def chalBad : Challenge := ⟨"bad.example", "_acme-challenge.bad.example", "tok3", 3⟩

/-- Concrete credentials file used by the witnesses: key `a` set,
key `b` present but empty, key `c` absent; mapper prefixes `pfx_`. -/
def ccEx : CredentialsConfiguration :=
  ⟨"/tmp/creds.ini", fun v => "pfx_" ++ v, [("pfx_a", "1"), ("pfx_b", "")]⟩

/-- Concrete filesystem used by the witnesses: `/missing` does not
exist, `/dir` exists but is not a regular file, `/creds.ini` is a
regular file with mode 0o644 (other-readable). -/
def fsEx : FileSystem :=
  { pathExists := fun p => p ≠ "/missing"
    isfile := fun p => p = "/creds.ini"
    lstatMode := fun _ => 0o644 }

/-- Concrete environment and plugin configuration for the C8 witness. -/
def envEx : Env :=
  { fs := fsEx
    fileContents := fun _ => [("pfx_a", "1"), ("pfx_b", "")]
    promptFile := none
    abspath := fun p => p
    expanduser := fun p => p }

/-- Concrete plugin configuration: the `creds` key already holds the
file path. -/
def pcEx : PluginConfig :=
  { conf := fun k => if k = "creds" then some "/creds.ini" else none
    dest := fun v => "pfx_" ++ v }

/-- The nonempty tails of the fragment list, each joined with dots:
the recursive shape of `base_domain_name_guesses`'s comprehension. -/
def guessesAux : List (List Char) → List (List Char)
  | [] => []
  | f :: fs => joinDot (f :: fs) :: guessesAux fs

/-! ### Lemmas about the perform/cleanup loops -/

theorem performLoop_ok (b : Binding) (cs : List Challenge)
    (h : ∀ c ∈ cs, b.createRecord c.domain c.validationDomainName c.validation = .ok ()) :
    performLoop b cs = (cs.map createEv, .ok (cs.map Challenge.response)) := by
  induction cs with
  | nil => rfl
  | cons c cs ih =>
    have hc := h c (List.mem_cons_self c cs)
    have ih2 := ih (fun x hx => h x (List.mem_cons_of_mem c hx))
    simp [performLoop, hc, ih2, Except.map]

theorem performLoop_fail (b : Binding) (pre : List Challenge) (c : Challenge)
    (post : List Challenge) (e : PyErr)
    (hpre : ∀ x ∈ pre, b.createRecord x.domain x.validationDomainName x.validation = .ok ())
    (hc : b.createRecord c.domain c.validationDomainName c.validation = .error e) :
    performLoop b (pre ++ c :: post) = (pre.map createEv ++ [createEv c], .error e) := by
  induction pre with
  | nil => simp [performLoop, hc, Except.map]
  | cons x pre ih =>
    have hx := hpre x (List.mem_cons_self x pre)
    have ih2 := ih (fun y hy => hpre y (List.mem_cons_of_mem x hy))
    simp [performLoop, hx, ih2, Except.map]

theorem cleanupLoop_ok (b : Binding) (cs : List Challenge)
    (h : ∀ c ∈ cs, b.deleteRecord c.domain c.validationDomainName c.validation = .ok ()) :
    cleanupLoop b cs = (cs.map deleteEv, .ok ()) := by
  induction cs with
  | nil => rfl
  | cons c cs ih =>
    have hc := h c (List.mem_cons_self c cs)
    have ih2 := ih (fun x hx => h x (List.mem_cons_of_mem c hx))
    simp [cleanupLoop, hc, ih2]

/-! ### Claims about the challenge orchestrator -/

/-- C1: for every ordered sequence of N challenges on which every
provider-binding create succeeds, `perform` invokes the binding's
`createRecord` exactly once per challenge, in input order, and returns
exactly N responses in the same order as the input. -/
theorem perform_success (a : Authenticator) (achalls : List Challenge)
    (hsetup : a.binding.setupCredentials = .ok ())
    (hok : ∀ c ∈ achalls,
      a.binding.createRecord c.domain c.validationDomainName c.validation = .ok ())
    (hprop : 0 ≤ a.propagationSeconds) :
    (perform a achalls).events =
      .setupCredentials :: achalls.map createEv ++ [.sleepFor a.propagationSeconds]
    ∧ (perform a achalls).result = .ok (achalls.map Challenge.response)
    ∧ (achalls.map Challenge.response).length = achalls.length := by
  have hloop := performLoop_ok a.binding achalls hok
  simp [perform, hsetup, hloop, not_lt.mpr hprop]

/-- Witness for C1 at a concrete input: two challenges, a binding that
always succeeds. -/
theorem perform_success_witness :
    (perform (initAuthenticator 10 bindingEx) [chalEx1, chalEx2]).events =
      [.setupCredentials, createEv chalEx1, createEv chalEx2, .sleepFor 10]
    ∧ (perform (initAuthenticator 10 bindingEx) [chalEx1, chalEx2]).result = .ok [1, 2] := by
  have h := perform_success (initAuthenticator 10 bindingEx) [chalEx1, chalEx2] rfl
    (by intro c hc; fin_cases hc <;> rfl) (by decide)
  exact ⟨h.1.trans rfl, (h.2.1).trans rfl⟩

/-- C2: `perform` sets the cleanup-eligibility flag before iterating,
so when the binding's create fails on the k-th challenge (here `pre`
holds the first k-1 challenges), exactly the first k-1 creates
succeeded, the error propagates instead of a response sequence, and
the instance is left cleanup-eligible. -/
theorem perform_partial_failure (a : Authenticator) (pre : List Challenge)
    (c : Challenge) (post : List Challenge) (e : PyErr)
    (hsetup : a.binding.setupCredentials = .ok ())
    (hpre : ∀ x ∈ pre,
      a.binding.createRecord x.domain x.validationDomainName x.validation = .ok ())
    (hc : a.binding.createRecord c.domain c.validationDomainName c.validation = .error e) :
    (perform a (pre ++ c :: post)).attemptCleanup = true
    ∧ (perform a (pre ++ c :: post)).result = .error e
    ∧ (perform a (pre ++ c :: post)).events =
        .setupCredentials :: pre.map createEv ++ [createEv c]
    ∧ (pre.map createEv).length = pre.length := by
  have hloop := performLoop_fail a.binding pre c post e hpre hc
  simp [perform, hsetup, hloop]

/-- Witness for C2 at a concrete input: the second of three challenges
fails, so exactly one create succeeded and the flag is set. -/
theorem perform_partial_failure_witness :
    (perform (initAuthenticator 10 bindingFailEx) [chalEx1, chalBad, chalEx2]).attemptCleanup = true
    ∧ (perform (initAuthenticator 10 bindingFailEx) [chalEx1, chalBad, chalEx2]).result =
        .error (.pluginError "boom")
    ∧ (perform (initAuthenticator 10 bindingFailEx) [chalEx1, chalBad, chalEx2]).events =
        [.setupCredentials, createEv chalEx1, createEv chalBad] := by
  have h := perform_partial_failure (initAuthenticator 10 bindingFailEx) [chalEx1] chalBad
    [chalEx2] (.pluginError "boom") rfl (by intro x hx; fin_cases hx <;> rfl) rfl
  exact ⟨h.1, h.2.1, h.2.2.1.trans rfl⟩

/-- C3: `cleanup` never changes the cleanup-eligibility flag; with the
flag still false (in particular on a fresh instance on which `perform`
never ran) it performs zero deletes; with the flag set it invokes the
binding's `deleteRecord` exactly once per challenge in input order
(provided the binding's deletes succeed, as the provider contract
requires). -/
theorem cleanup_spec (a : Authenticator) (achalls : List Challenge) :
    (cleanup a achalls).attemptCleanup = a.attemptCleanup
    ∧ (a.attemptCleanup = false → (cleanup a achalls).events = [])
    ∧ (a.attemptCleanup = true →
        (∀ c ∈ achalls,
          a.binding.deleteRecord c.domain c.validationDomainName c.validation = .ok ()) →
        (cleanup a achalls).events = achalls.map deleteEv)
    ∧ (∀ (p : Int) (b : Binding), (cleanup (initAuthenticator p b) achalls).events = []) := by
  refine ⟨?_, ?_, ?_, ?_⟩
  · by_cases hf : a.attemptCleanup <;> simp [cleanup, hf]
  · intro hf; simp [cleanup, hf]
  · intro hf hdel
    have hloop := cleanupLoop_ok a.binding achalls hdel
    simp [cleanup, hf, hloop]
  · intro p b; simp [cleanup, initAuthenticator]

/-- Witness for C3 at a concrete input: a fresh instance deletes
nothing; an instance with the flag set deletes both challenges in
order and keeps the flag. -/
theorem cleanup_spec_witness :
    (cleanup (initAuthenticator 10 bindingEx) [chalEx1, chalEx2]).events = []
    ∧ (cleanup ⟨10, true, bindingEx⟩ [chalEx1, chalEx2]).events =
        [deleteEv chalEx1, deleteEv chalEx2]
    ∧ (cleanup ⟨10, true, bindingEx⟩ [chalEx1, chalEx2]).attemptCleanup = true := by
  have h1 := (cleanup_spec (initAuthenticator 10 bindingEx) [chalEx1, chalEx2]).2.1 rfl
  have h2 := (cleanup_spec ⟨10, true, bindingEx⟩ [chalEx1, chalEx2]).2.2.1 rfl
    (by intro c hc; fin_cases hc <;> rfl)
  have h3 := (cleanup_spec ⟨10, true, bindingEx⟩ [chalEx1, chalEx2]).1
  exact ⟨h1, by rw [h2]; rfl, h3⟩

/-- C7: when every create succeeds, `perform` records the suspension
for the configured `propagation-seconds` after the last create and
returns the responses only in that same outcome; the argument is
registered with default 10 and integer type, and a negative duration
makes the sleep raise `ValueError` instead of returning responses, so
the value must be a non-negative integer. -/
theorem propagation_delay_spec (a : Authenticator) (achalls : List Challenge)
    (hsetup : a.binding.setupCredentials = .ok ())
    (hok : ∀ c ∈ achalls,
      a.binding.createRecord c.domain c.validationDomainName c.validation = .ok ()) :
    (0 ≤ a.propagationSeconds →
      (perform a achalls).events =
        .setupCredentials :: achalls.map createEv ++ [.sleepFor a.propagationSeconds]
      ∧ (perform a achalls).result = .ok (achalls.map Challenge.response))
    ∧ (a.propagationSeconds < 0 →
        (perform a achalls).result = .error (.valueError "sleep length must be non-negative"))
    ∧ add_parser_arguments.name = "propagation-seconds"
    ∧ add_parser_arguments.defaultValue = 10 := by
  have hloop := performLoop_ok a.binding achalls hok
  refine ⟨fun hprop => ?_, fun hprop => ?_, rfl, rfl⟩
  · simp [perform, hsetup, hloop, not_lt.mpr hprop]
  · simp [perform, hsetup, hloop, hprop]

/-- Witness for C7 at a concrete input: with the default duration the
sleep happens and responses are returned; with duration -1 the sleep
raises. -/
theorem propagation_delay_spec_witness :
    (perform (initAuthenticator 10 bindingEx) [chalEx1]).events =
      [.setupCredentials, createEv chalEx1, .sleepFor 10]
    ∧ (perform (initAuthenticator 10 bindingEx) [chalEx1]).result = .ok [1]
    ∧ (perform (initAuthenticator (-1) bindingEx) [chalEx1]).result =
        .error (.valueError "sleep length must be non-negative")
    ∧ add_parser_arguments.defaultValue = 10 := by
  have h1 := propagation_delay_spec (initAuthenticator 10 bindingEx) [chalEx1] rfl
    (by intro c hc; fin_cases hc <;> rfl)
  have h2 := propagation_delay_spec (initAuthenticator (-1) bindingEx) [chalEx1] rfl
    (by intro c hc; fin_cases hc <;> rfl)
  have h10 := h1.1 (by decide)
  refine ⟨h10.1.trans rfl, h10.2.trans rfl, h2.2.1 (by decide), h1.2.2.2⟩

/-- C9: `perform` on the empty challenge sequence still calls
`setupCredentials`, still sleeps for the propagation delay, returns an
empty response sequence, and still sets the cleanup-eligibility flag,
so a subsequent `cleanup` iterates over its challenges. -/
theorem perform_empty_spec (a : Authenticator)
    (hsetup : a.binding.setupCredentials = .ok ())
    (hprop : 0 ≤ a.propagationSeconds) :
    (perform a []).events = [.setupCredentials, .sleepFor a.propagationSeconds]
    ∧ (perform a []).result = .ok []
    ∧ (perform a []).attemptCleanup = true
    ∧ ∀ cs : List Challenge,
        (∀ c ∈ cs,
          a.binding.deleteRecord c.domain c.validationDomainName c.validation = .ok ()) →
        (cleanup { a with attemptCleanup := (perform a []).attemptCleanup } cs).events =
          cs.map deleteEv := by
  have hperf : perform a [] =
      ⟨true, [.setupCredentials, .sleepFor a.propagationSeconds], .ok []⟩ := by
    simp [perform, performLoop, hsetup, not_lt.mpr hprop]
  refine ⟨by rw [hperf], by rw [hperf], by rw [hperf], fun cs hdel => ?_⟩
  have hloop := cleanupLoop_ok a.binding cs hdel
  rw [hperf]
  simp [cleanup, hloop]

/-- Witness for C9 at a concrete input. -/
theorem perform_empty_spec_witness :
    (perform (initAuthenticator 10 bindingEx) []).events =
      [.setupCredentials, .sleepFor 10]
    ∧ (perform (initAuthenticator 10 bindingEx) []).result = .ok []
    ∧ (perform (initAuthenticator 10 bindingEx) []).attemptCleanup = true
    ∧ (cleanup { initAuthenticator 10 bindingEx with
          attemptCleanup := (perform (initAuthenticator 10 bindingEx) []).attemptCleanup }
        [chalEx1]).events = [deleteEv chalEx1] := by
  have h := perform_empty_spec (initAuthenticator 10 bindingEx) rfl (by decide)
  exact ⟨h.1.trans rfl, h.2.1, h.2.2.1,
    (h.2.2.2 [chalEx1] (by intro c hc; fin_cases hc <;> rfl)).trans rfl⟩

/-! ### Substring occurrence, used to state what an error message enumerates -/

theorem mentions_append_left (a : String) {b part : String} (h : mentions b part) :
    mentions (a ++ b) part := by
  obtain ⟨s, t, h⟩ := h
  exact ⟨a.data ++ s, t, by rw [String.data_append, ← h]; simp⟩

theorem mem_joinWith {m : String} : ∀ {ms : List String}, m ∈ ms → ∀ sep : String,
    mentions (joinWith sep ms) m := by
  intro ms
  induction ms with
  | nil => intro h; cases h
  | cons x t ih =>
    intro h sep
    cases t with
    | nil =>
      rw [List.mem_singleton] at h
      exact ⟨[], [], by simp [h, joinWith]⟩
    | cons y ts =>
      rcases List.mem_cons.mp h with h | h
      · exact ⟨[], (sep ++ joinWith sep (y :: ts)).data, by simp [h, joinWith, String.data_append]⟩
      · exact mentions_append_left (x ++ sep) (ih h sep)

theorem aggregate_mentions_filename (f : String) (ms : List String) :
    mentions (aggregateMessage f ms) f := by
  refine ⟨("Missing " ++ (if ms.length = 1 then "property" else "properties") ++
    " in credentials configuration file ").data, (":\n * " ++ joinWith "\n * " ms).data, ?_⟩
  simp [aggregateMessage, String.data_append]

theorem aggregate_mentions_message (f : String) (ms : List String) {m : String}
    (h : m ∈ ms) : mentions (aggregateMessage f ms) m := by
  have := mentions_append_left
    ("Missing " ++ (if ms.length = 1 then "property" else "properties") ++
      " in credentials configuration file " ++ f ++ ":\n * ") (mem_joinWith h "\n * ")
  obtain ⟨s, t, hst⟩ := this
  exact ⟨s, t, by rw [hst]; simp [aggregateMessage, String.data_append]⟩

theorem requireMessage_none {c : CredentialsConfiguration} {vd : String × String}
    (hhas : c.hasVar vd.1) (hne : c.getVar vd.1 ≠ some "") :
    requireMessage c vd = none := by
  unfold requireMessage
  unfold CredentialsConfiguration.hasVar at hhas
  cases hget : c.getVar vd.1 with
  | none => rw [hget] at hhas; simp at hhas
  | some v =>
    rw [hget] at hne
    simp only []
    rw [if_neg (by intro hv; exact hne (by rw [hv]))]

theorem requireMessage_mentions {c : CredentialsConfiguration} {vd : String × String}
    {m : String} (h : requireMessage c vd = some m) :
    mentions m (c.mapper vd.1) ∧ mentions m vd.2 := by
  unfold requireMessage at h
  cases hget : c.getVar vd.1 with
  | none =>
    rw [hget] at h
    simp only [Option.some.injEq] at h
    subst h
    constructor
    · exact ⟨("Property \"").data, ("\" not found (should be " ++ vd.2 ++ ").").data,
        by simp [String.data_append]⟩
    · exact ⟨("Property \"" ++ c.mapper vd.1 ++ "\" not found (should be ").data, (").").data,
        by simp [String.data_append]⟩
  | some v =>
    rw [hget] at h
    have h2 : (if v = "" then
        some ("Property \"" ++ c.mapper vd.1 ++ "\" not set (should be " ++ vd.2 ++ ").")
        else none) = some m := h
    by_cases hv : v = ""
    · rw [if_pos hv, Option.some.injEq] at h2
      subst h2
      constructor
      · exact ⟨("Property \"").data, ("\" not set (should be " ++ vd.2 ++ ").").data,
          by simp [String.data_append]⟩
      · exact ⟨("Property \"" ++ c.mapper vd.1 ++ "\" not set (should be ").data, (").").data,
          by simp [String.data_append]⟩
    · rw [if_neg hv] at h2; cases h2

/-- C4: `require` checks every required key (through the key-mapper)
without stopping at the first failure; if any key is missing or empty
it raises exactly one aggregate `PluginError` whose message contains,
for every failing key, that key's failure message (which names the
mapped key and its description) and contains the file path; if every
key is present and non-empty it returns without error. -/
theorem require_spec (c : CredentialsConfiguration) (reqs : List (String × String)) :
    ((∀ vd ∈ reqs, c.hasVar vd.1 ∧ c.getVar vd.1 ≠ some "") → c.require reqs = .ok ())
    ∧ (∀ vd ∈ reqs, ∀ m, requireMessage c vd = some m →
        mentions m (c.mapper vd.1) ∧ mentions m vd.2
        ∧ c.require reqs =
            .error (.pluginError
              (aggregateMessage c.filename (reqs.filterMap (requireMessage c))))
        ∧ mentions (aggregateMessage c.filename (reqs.filterMap (requireMessage c))) m
        ∧ mentions (aggregateMessage c.filename (reqs.filterMap (requireMessage c)))
            c.filename) := by
  constructor
  · intro hok
    have hnil : reqs.filterMap (requireMessage c) = [] := by
      rw [List.filterMap_eq_nil_iff]
      intro vd hvd
      exact requireMessage_none (hok vd hvd).1 (hok vd hvd).2
    simp [CredentialsConfiguration.require, hnil]
  · intro vd hvd m hm
    have hmem : m ∈ reqs.filterMap (requireMessage c) :=
      List.mem_filterMap.mpr ⟨vd, hvd, hm⟩
    have hne : reqs.filterMap (requireMessage c) ≠ [] := List.ne_nil_of_mem hmem
    refine ⟨(requireMessage_mentions hm).1, (requireMessage_mentions hm).2, ?_, ?_, ?_⟩
    · simp [CredentialsConfiguration.require, List.isEmpty_iff, hne]
    · exact aggregate_mentions_message c.filename _ hmem
    · exact aggregate_mentions_filename c.filename _

/-- Witness for C4 at a concrete input: with keys `b` (empty) and `c`
(missing) required, `require` fails with one aggregate error that
mentions both failures and the file path; with only key `a` required
it succeeds. -/
theorem require_spec_witness :
    ccEx.require [("a", "the A")] = .ok ()
    ∧ (mentions "Property \"pfx_b\" not set (should be the B)." (ccEx.mapper "b")
      ∧ mentions "Property \"pfx_b\" not set (should be the B)." "the B"
      ∧ ccEx.require [("b", "the B"), ("c", "the C")] =
          .error (.pluginError
            (aggregateMessage ccEx.filename
              ([("b", "the B"), ("c", "the C")].filterMap (requireMessage ccEx))))
      ∧ mentions
          (aggregateMessage ccEx.filename
            ([("b", "the B"), ("c", "the C")].filterMap (requireMessage ccEx)))
          "Property \"pfx_b\" not set (should be the B)."
      ∧ mentions
          (aggregateMessage ccEx.filename
            ([("b", "the B"), ("c", "the C")].filterMap (requireMessage ccEx)))
          ccEx.filename) := by
  constructor
  · exact (require_spec ccEx [("a", "the A")]).1
      (by intro vd hvd; fin_cases hvd; exact ⟨by decide, by decide⟩)
  · exact (require_spec ccEx [("b", "the B"), ("c", "the C")]).2 ("b", "the B")
      (by decide) "Property \"pfx_b\" not set (should be the B)." (by decide)

/-! ### Claims about file validation -/

/-- C6: `validate_file_permissions` first validates the file: on a
nonexistent path it raises the "not found" error, on a path that is
not a regular file it raises the "not a file" error, and on a regular
file with any "other" permission bit set it returns successfully with
the warning naming the file instead of raising. -/
theorem validate_file_permissions_spec (fs : FileSystem) (fn : String) :
    (fs.pathExists fn = false →
      validate_file_permissions fs fn = .error (.pluginError ("File not found: " ++ fn)))
    ∧ (fs.pathExists fn = true → fs.isfile fn = false →
      validate_file_permissions fs fn = .error (.pluginError ("Path is not a file: " ++ fn)))
    ∧ (fs.pathExists fn = true → fs.isfile fn = true →
        (fs.lstatMode fn) &&& S_IRWXO ≠ 0 →
        validate_file_permissions fs fn =
          .ok ["Unsafe permissions on credentials configuration file: " ++ fn]) := by
  refine ⟨fun h1 => ?_, fun h1 h2 => ?_, fun h1 h2 h3 => ?_⟩
  · simp [validate_file_permissions, validate_file, h1]
  · simp [validate_file_permissions, validate_file, h1, h2]
  · simp [validate_file_permissions, validate_file, h1, h2, h3]

/-- Witness for C6 at concrete inputs: the three behaviors on the
concrete filesystem. -/
theorem validate_file_permissions_spec_witness :
    validate_file_permissions fsEx "/missing" =
      .error (.pluginError ("File not found: " ++ "/missing"))
    ∧ validate_file_permissions fsEx "/dir" =
      .error (.pluginError ("Path is not a file: " ++ "/dir"))
    ∧ validate_file_permissions fsEx "/creds.ini" =
      .ok ["Unsafe permissions on credentials configuration file: " ++ "/creds.ini"] :=
  ⟨(validate_file_permissions_spec fsEx "/missing").1 (by decide),
   (validate_file_permissions_spec fsEx "/dir").2.1 (by decide) (by decide),
   (validate_file_permissions_spec fsEx "/creds.ini").2.2 (by decide) (by decide) (by decide)⟩

/-! ### Claim about credentials configuration -/

/-- C8: with the file path already configured and its permission
validation passing, `_configure_credentials` with `required_variables`
absent (`None`) or an empty mapping performs no required-key
validation and still returns the `CredentialsConfiguration` built from
the configured path; with a non-empty mapping its outcome is exactly
that of `require` on every required key. -/
theorem configure_credentials_spec (env : Env) (pc : PluginConfig)
    (key label path : String) (reqs : List (String × String))
    (hconf : pc.conf key = some path) (hpath : path ≠ "")
    (hperm : ∃ w, validate_file_permissions env.fs path = .ok w) :
    configure_credentials env pc key label none =
      .ok (pc, ⟨path, pc.dest, env.fileContents path⟩)
    ∧ configure_credentials env pc key label (some []) =
      .ok (pc, ⟨path, pc.dest, env.fileContents path⟩)
    ∧ (reqs ≠ [] → configure_credentials env pc key label (some reqs) =
        (CredentialsConfiguration.require ⟨path, pc.dest, env.fileContents path⟩ reqs).map
          (fun _ => (pc, ⟨path, pc.dest, env.fileContents path⟩))) := by
  obtain ⟨w, hw⟩ := hperm
  have hfile : configure_file env pc key label = .ok pc := by
    simp [configure_file, hconf, isFalsy, hpath]
  have hcc : mkCredentialsConfiguration env ((pc.conf key).getD "") pc.dest =
      .ok ⟨path, pc.dest, env.fileContents path⟩ := by
    simp [mkCredentialsConfiguration, hconf, hw]
  refine ⟨?_, ?_, fun hreqs => ?_⟩
  · simp [configure_credentials, hfile, hcc]
  · simp [configure_credentials, hfile, hcc]
  · simp only [configure_credentials, hfile, hcc]
    rw [if_neg (by simpa [List.isEmpty_iff] using hreqs)]
    cases hreq : CredentialsConfiguration.require ⟨path, pc.dest, env.fileContents path⟩ reqs with
    | error e => simp [Except.map]
    | ok u => simp [Except.map]

/-- Witness for C8 at a concrete input: `None` and the empty mapping
skip validation and return the configuration; a non-empty mapping with
a missing key fails exactly as `require` does. -/
theorem configure_credentials_spec_witness :
    configure_credentials envEx pcEx "creds" "credentials" none =
      .ok (pcEx, ⟨"/creds.ini", pcEx.dest, envEx.fileContents "/creds.ini"⟩)
    ∧ configure_credentials envEx pcEx "creds" "credentials" (some []) =
      .ok (pcEx, ⟨"/creds.ini", pcEx.dest, envEx.fileContents "/creds.ini"⟩)
    ∧ configure_credentials envEx pcEx "creds" "credentials" (some [("c", "the C")]) =
        (CredentialsConfiguration.require
          ⟨"/creds.ini", pcEx.dest, envEx.fileContents "/creds.ini"⟩ [("c", "the C")]).map
          (fun _ => (pcEx, ⟨"/creds.ini", pcEx.dest, envEx.fileContents "/creds.ini"⟩)) := by
  have h := configure_credentials_spec envEx pcEx "creds" "credentials" "/creds.ini"
    [("c", "the C")] rfl (by decide)
    ⟨["Unsafe permissions on credentials configuration file: " ++ "/creds.ini"], rfl⟩
  exact ⟨h.1, h.2.1, h.2.2 (by decide)⟩

/-! ### Lemmas about domain splitting and joining -/

theorem splitDot_ne_nil (l : List Char) : splitDot l ≠ [] := by
  cases l with
  | nil => simp [splitDot]
  | cons c cs =>
    unfold splitDot
    cases splitDot cs with
    | nil => simp
    | cons h t =>
      by_cases hc : c = '.'
      · simp [hc]
      · simp [hc]

theorem splitDot_cons (c : Char) (cs h : List Char) (t : List (List Char))
    (hs : splitDot cs = h :: t) :
    splitDot (c :: cs) = if c = '.' then [] :: h :: t else (c :: h) :: t := by
  unfold splitDot
  rw [hs]

theorem length_splitDot (l : List Char) : (splitDot l).length = l.count '.' + 1 := by
  induction l with
  | nil => rfl
  | cons c cs ih =>
    cases hs : splitDot cs with
    | nil => exact absurd hs (splitDot_ne_nil cs)
    | cons h t =>
      rw [hs] at ih
      simp only [List.length_cons] at ih
      rw [splitDot_cons c cs h t hs]
      by_cases hc : c = '.'
      · subst hc
        simp [List.count_cons, List.length_cons]
        omega
      · have hc2 : ('.' : Char) ≠ c := Ne.symm hc
        simp [List.count_cons, List.length_cons, hc, hc2]
        omega

theorem joinDot_splitDot (l : List Char) : joinDot (splitDot l) = l := by
  induction l with
  | nil => rfl
  | cons c cs ih =>
    cases hs : splitDot cs with
    | nil => exact absurd hs (splitDot_ne_nil cs)
    | cons h t =>
      rw [hs] at ih
      rw [splitDot_cons c cs h t hs]
      by_cases hc : c = '.'
      · subst hc
        rw [if_pos rfl]
        simp [joinDot, ih]
      · rw [if_neg hc]
        cases t with
        | nil =>
          simp only [joinDot] at ih ⊢
          rw [ih]
        | cons t1 ts =>
          simp only [joinDot] at ih ⊢
          rw [← ih]
          simp

theorem splitDot_no_dot {l : List Char} (h : '.' ∉ l) : splitDot l = [l] := by
  induction l with
  | nil => rfl
  | cons c cs ih =>
    have hc : c ≠ '.' := fun he => h (he ▸ List.mem_cons_self c cs)
    have ih2 := ih (fun hm => h (List.mem_cons_of_mem c hm))
    rw [splitDot_cons c cs cs [] ih2, if_neg hc]

theorem getLast_splitDot (l : List Char) : (splitDot l).getLast? = some (lastLabel l) := by
  induction l with
  | nil => rfl
  | cons c cs ih =>
    cases hs : splitDot cs with
    | nil => exact absurd hs (splitDot_ne_nil cs)
    | cons h t =>
      rw [hs] at ih
      rw [splitDot_cons c cs h t hs]
      by_cases hc : c = '.'
      · subst hc
        rw [if_pos rfl, List.getLast?_cons_cons, ih]
        simp [lastLabel]
      · rw [if_neg hc]
        cases t with
        | nil =>
          have hlen := length_splitDot cs
          rw [hs] at hlen
          simp only [List.length_singleton] at hlen
          have hcount : cs.count '.' = 0 := by omega
          have hnd : '.' ∉ cs := List.count_eq_zero.mp hcount
          have hjoin := joinDot_splitDot cs
          rw [hs] at hjoin
          simp only [joinDot] at hjoin
          subst hjoin
          simp [lastLabel, hc, hnd]
        | cons t1 ts =>
          have hd : '.' ∈ cs := by
            by_contra hnd
            rw [splitDot_no_dot hnd] at hs
            simp at hs
          rw [List.getLast?_cons_cons] at ih ⊢
          rw [ih]
          simp [lastLabel, hc, hd]

theorem range_map_joinDot (l : List (List Char)) :
    (List.range l.length).map (fun i => joinDot (l.drop i)) = guessesAux l := by
  induction l with
  | nil => rfl
  | cons f fs ih =>
    rw [List.length_cons, List.range_succ_eq_map, List.map_cons, List.map_map]
    show joinDot (f :: fs) :: _ = guessesAux (f :: fs)
    rw [show guessesAux (f :: fs) = joinDot (f :: fs) :: guessesAux fs from rfl]
    rw [← ih]
    rfl

theorem base_eq_guessesAux (d : String) :
    base_domain_name_guesses d = (guessesAux (splitDot d.data)).map String.mk := by
  simp only [base_domain_name_guesses]
  rw [← range_map_joinDot, List.map_map]
  rfl

theorem guessesAux_getLast : ∀ (l : List (List Char)), l ≠ [] →
    (guessesAux l).getLast? = l.getLast? := by
  intro l
  induction l with
  | nil => intro h; exact absurd rfl h
  | cons f fs ih =>
    intro _
    cases fs with
    | nil => simp [guessesAux, joinDot]
    | cons g gs =>
      have h1 : guessesAux (f :: g :: gs) =
          joinDot (f :: g :: gs) :: joinDot (g :: gs) :: guessesAux gs := rfl
      rw [h1, List.getLast?_cons_cons]
      have h2 : joinDot (g :: gs) :: guessesAux gs = guessesAux (g :: gs) := rfl
      rw [h2, ih (by simp)]
      rw [List.getLast?_cons_cons]

theorem guessesAux_suffix : ∀ (l : List (List Char)) (g : List Char), g ∈ guessesAux l →
    ∃ t, t ++ g = joinDot l := by
  intro l
  induction l with
  | nil => intro g hg; cases hg
  | cons f fs ih =>
    intro g hg
    rw [show guessesAux (f :: fs) = joinDot (f :: fs) :: guessesAux fs from rfl] at hg
    rcases List.mem_cons.mp hg with h | h
    · exact ⟨[], by simp [h]⟩
    · obtain ⟨t, ht⟩ := ih g h
      cases fs with
      | nil => cases h
      | cons y ts =>
        refine ⟨(f ++ ['.']) ++ t, ?_⟩
        rw [show joinDot (f :: y :: ts) = f ++ '.' :: joinDot (y :: ts) from rfl]
        rw [List.append_assoc, ht]
        simp

theorem guessesAux_chain : ∀ (l : List (List Char)),
    List.Chain' (fun a b : List Char => b.length < a.length) (guessesAux l) := by
  intro l
  induction l with
  | nil => exact List.chain'_nil
  | cons f fs ih =>
    rw [show guessesAux (f :: fs) = joinDot (f :: fs) :: guessesAux fs from rfl]
    rw [List.chain'_cons']
    refine ⟨?_, ih⟩
    intro b hb
    cases fs with
    | nil => cases hb
    | cons y ts =>
      rw [show guessesAux (y :: ts) = joinDot (y :: ts) :: guessesAux ts from rfl] at hb
      simp only [List.head?_cons, Option.mem_def, Option.some.injEq] at hb
      subst hb
      rw [show joinDot (f :: y :: ts) = f ++ '.' :: joinDot (y :: ts) from rfl]
      simp only [List.length_append, List.length_cons]
      omega

/-! ### Claims about the domain suffix guesses -/

/-- C5: `base_domain_name_guesses d` has length equal to the count of
dots in `d` plus one, starts with `d` itself, ends with `d`'s final
label, matches the documented example, and maps the empty string to
the one-element list containing the empty string. -/
theorem base_domain_name_guesses_spec (d : String) :
    (base_domain_name_guesses d).length = d.data.count '.' + 1
    ∧ (base_domain_name_guesses d).head? = some d
    ∧ (base_domain_name_guesses d).getLast? = some (String.mk (lastLabel d.data))
    ∧ base_domain_name_guesses "foo.bar.baz.example.com" =
        ["foo.bar.baz.example.com", "bar.baz.example.com", "baz.example.com",
          "example.com", "com"]
    ∧ base_domain_name_guesses "" = [""] := by
  refine ⟨?_, ?_, ?_, by decide, by decide⟩
  · simp [base_domain_name_guesses, length_splitDot]
  · rw [base_eq_guessesAux]
    cases hs : splitDot d.data with
    | nil => exact absurd hs (splitDot_ne_nil _)
    | cons h t =>
      rw [show guessesAux (h :: t) = joinDot (h :: t) :: guessesAux t from rfl]
      rw [List.map_cons, List.head?_cons]
      have hj : joinDot (h :: t) = d.data := by
        rw [← hs]; exact joinDot_splitDot d.data
      rw [hj]
  · rw [base_eq_guessesAux, List.getLast?_map,
      guessesAux_getLast _ (splitDot_ne_nil d.data), getLast_splitDot]
    rfl

/-- C10: for every input string, including strings with leading,
trailing, or consecutive dots, every element of
`base_domain_name_guesses` is a string suffix of the input, and the
sequence of element lengths is strictly decreasing. -/
theorem base_domain_name_guesses_suffix_chain (d : String) :
    (∀ g ∈ base_domain_name_guesses d, ∃ t, t ++ g.data = d.data)
    ∧ List.Chain' (fun a b : String => b.length < a.length)
        (base_domain_name_guesses d) := by
  constructor
  · intro g hg
    rw [base_eq_guessesAux] at hg
    rcases List.mem_map.mp hg with ⟨a, ha, rfl⟩
    obtain ⟨t, ht⟩ := guessesAux_suffix _ a ha
    rw [joinDot_splitDot] at ht
    exact ⟨t, ht⟩
  · rw [base_eq_guessesAux, List.chain'_map]
    exact guessesAux_chain _

end DnsCommon
